import Mathlib

/-!
Verification development for the mail-notice extraction/classification
pipeline of `mail_time_check.py`.

The Python source is shallowly embedded: every regex used by the pipeline is
translated into an executable function on `List Char` with the same
leftmost/greedy semantics, Python's stable `sorted`/`list.sort` is embedded as
an insertion sort (extensionally equal to any stable sort by the same key),
and the browser-driven lookups (facility resolver output, responder lookup,
detail-page fetch) are parameters of the embedding, since no verified claim
depends on their values.
-/

namespace MailTime

/-! ### Character helpers

Python's regex class `\s` (and the explicit full-width space in the source
patterns) and `str.strip()`: we model the whitespace set by the characters
that actually occur in this application's data (ASCII whitespace, NBSP and
the ideographic space U+3000). -/

/-- Whitespace as matched by the source's `[\s　]` classes and `str.strip()`. -/
def isPySpace (c : Char) : Bool :=
  c == ' ' || c == '\t' || c == '\n' || c == '\r' ||
  c == Char.ofNat 11 || c == Char.ofNat 12 || c == Char.ofNat 160 || c == '　'

/-- `str.strip()` on a character list. -/
def pyStripL (l : List Char) : List Char :=
  ((l.dropWhile isPySpace).reverse.dropWhile isPySpace).reverse

/-- `str.strip()` on a string. -/
def pyStrip (s : String) : String :=
  String.mk (pyStripL s.data)

/-- Does `hay` start with `pat`?  (List-level `startswith`.) -/
def startsL : List Char → List Char → Bool
  | [], _ => true
  | _ :: _, [] => false
  | a :: pa, b :: hb => a == b && startsL pa hb

/-- Python's `pat in hay` substring test. -/
def hasSub (pat : List Char) : List Char → Bool
  | [] => pat.isEmpty
  | c :: cs => startsL pat (c :: cs) || hasSub pat cs

/-- `int()` on a run of ASCII digits. -/
def digitsToNat (l : List Char) : Nat :=
  l.foldl (fun n c => 10 * n + (c.toNat - 48)) 0

/-! ### Python's stable sort

`sorted(l, key=k)` and `list.sort(key=k)` are stable; any two stable sorts by
the same key agree, so we embed them as an insertion sort that inserts each
element before the first existing element with a key that is not smaller. -/

/-- Insert `a` before the first element `b` of `l` with `le a b`. -/
def insertLe (le : α → α → Bool) (a : α) : List α → List α
  | [] => [a]
  | b :: l => if le a b then a :: b :: l else b :: insertLe le a l

/-- Stable insertion sort; embeds Python's `sorted` with a key comparison. -/
def isort (le : α → α → Bool) : List α → List α
  | [] => []
  | a :: l => insertLe le a (isort le l)

theorem length_insertLe (le : α → α → Bool) (a : α) (l : List α) :
    (insertLe le a l).length = l.length + 1 := by
  induction l with
  | nil => rfl
  | cons b l ih =>
    unfold insertLe
    by_cases h : le a b = true
    · simp [h]
    · simp [h, ih]

theorem length_isort (le : α → α → Bool) (l : List α) :
    (isort le l).length = l.length := by
  induction l with
  | nil => rfl
  | cons a l ih => simp [isort, length_insertLe, ih]

theorem mem_insertLe (le : α → α → Bool) (a x : α) (l : List α) :
    x ∈ insertLe le a l ↔ x = a ∨ x ∈ l := by
  induction l with
  | nil => simp [insertLe]
  | cons b l ih =>
    unfold insertLe
    by_cases h : le a b = true
    · simp [h]
    · simp [h, ih]
      tauto

theorem pairwise_insertLe (le : α → α → Bool)
    (htot : ∀ a b, le a b = false → le b a = true)
    (htrans : ∀ a b c, le a b = true → le b c = true → le a c = true)
    (a : α) (l : List α) (hl : l.Pairwise (fun x y => le x y = true)) :
    (insertLe le a l).Pairwise (fun x y => le x y = true) := by
  induction l with
  | nil => simp [insertLe]
  | cons b l ih =>
    rcases List.pairwise_cons.mp hl with ⟨hb, hl'⟩
    unfold insertLe
    by_cases h : le a b = true
    · simp only [h, if_true]
      refine List.pairwise_cons.mpr ⟨?_, hl⟩
      intro x hx
      rcases List.mem_cons.mp hx with hx | hx
      · rw [hx]
        exact h
      · exact htrans a b x h (hb x hx)
    · simp only [h, if_false]
      refine List.pairwise_cons.mpr ⟨?_, ih hl'⟩
      intro x hx
      rcases (mem_insertLe le a x l).mp hx with h1 | h1
      · rw [h1]
        exact htot a b (by simpa using h)
      · exact hb x h1

theorem pairwise_isort (le : α → α → Bool)
    (htot : ∀ a b, le a b = false → le b a = true)
    (htrans : ∀ a b c, le a b = true → le b c = true → le a c = true)
    (l : List α) : (isort le l).Pairwise (fun x y => le x y = true) := by
  induction l with
  | nil => exact List.Pairwise.nil
  | cons a l ih => exact pairwise_insertLe le htot htrans a (isort le l) ih

/-- Stability of the insertion step: the subsequence of elements whose key
satisfies `p` is either untouched or gets `a` prepended, provided elements
rejected during the walk (those with `le a b = false`) never satisfy `p`
when `a` does.  We state it for key-based orders directly. -/
theorem filter_insertLe (key : α → Nat) (n : Nat) (a : α) (l : List α) :
    (insertLe (fun x y => key x ≤ key y) a l).filter (fun x => key x == n) =
      if key a == n then a :: l.filter (fun x => key x == n)
      else l.filter (fun x => key x == n) := by
  induction l with
  | nil =>
    simp [insertLe, List.filter_cons]
  | cons b l ih =>
    unfold insertLe
    by_cases h : key a ≤ key b
    · simp only [decide_eq_true h, if_true]
      by_cases ha : key a = n
      · simp [List.filter_cons, beq_iff_eq, ha]
      · simp [List.filter_cons, beq_iff_eq, ha]
    · have hba : key b < key a := Nat.lt_of_not_le h
      simp only [decide_eq_false h, Bool.false_eq_true, if_false]
      by_cases ha : key a = n
      · have hbn : ¬ (key b = n) := by
          intro hbn
          rw [ha] at hba
          rw [hbn] at hba
          exact Nat.lt_irrefl n hba
        simp [List.filter_cons, beq_iff_eq, ha, hbn, ih]
      · by_cases hbn : key b = n
        · simp [List.filter_cons, beq_iff_eq, ha, hbn, ih]
        · simp [List.filter_cons, beq_iff_eq, ha, hbn, ih]

theorem filter_isort (key : α → Nat) (n : Nat) (l : List α) :
    (isort (fun x y => key x ≤ key y) l).filter (fun x => key x == n) =
      l.filter (fun x => key x == n) := by
  induction l with
  | nil => rfl
  | cons a l ih =>
    unfold isort
    rw [filter_insertLe key n a (isort (fun x y => key x ≤ key y) l)]
    by_cases ha : key a = n
    · simp [List.filter_cons, beq_iff_eq, ha, ih]
    · simp [List.filter_cons, beq_iff_eq, ha, ih]

/-- Sorting a list already pairwise-ordered by `le` is the identity (hence a
stable re-sort by a key that is nondecreasing in the current order is
observably a no-op). -/
theorem isort_eq_self (le : α → α → Bool) (l : List α)
    (hl : l.Pairwise (fun x y => le x y = true)) : isort le l = l := by
  induction l with
  | nil => rfl
  | cons a l ih =>
    rcases List.pairwise_cons.mp hl with ⟨ha, hl'⟩
    unfold isort
    rw [ih hl']
    cases l with
    | nil => rfl
    | cons b l =>
      unfold insertLe
      rw [ha b (List.mem_cons_self b l)]
      simp

/-- A map that leaves the comparison unchanged commutes with the insertion
step. -/
theorem insertLe_map (le : α → α → Bool) (g : α → α)
    (hg : ∀ a b, le (g a) (g b) = le a b) (a : α) (l : List α) :
    insertLe le (g a) (l.map g) = (insertLe le a l).map g := by
  induction l with
  | nil => rfl
  | cons b l ih =>
    simp only [List.map_cons]
    unfold insertLe
    rw [hg a b]
    by_cases h : le a b = true
    · simp [h]
    · simp [h, ih]

/-- A map that leaves the comparison unchanged commutes with sorting: the
sort order is decided by the comparison alone, so fields the comparison
ignores play no role in the ordering. -/
theorem isort_map (le : α → α → Bool) (g : α → α)
    (hg : ∀ a b, le (g a) (g b) = le a b) (l : List α) :
    isort le (l.map g) = (isort le l).map g := by
  induction l with
  | nil => rfl
  | cons a l ih =>
    simp only [List.map_cons]
    unfold isort
    rw [ih]
    exact insertLe_map le g hg a (isort le l)

/-! ### Raw notices and the Record Extractor

A `Fragment` is one mail element as the loop in `extract_mail_data` sees it:
its `innerHTML`, the `href` of its anchor, and its plain-text rendering. -/

structure Fragment where
  html : String
  href : String
  text : String
deriving DecidableEq

/-- Python's `str.split(sep)` on character lists (non-overlapping leftmost
occurrences), with a structural fuel argument so the kernel can evaluate
it; `fuel` only needs to be at least the list length. -/
def splitGo (sep : List Char) : Nat → List Char → List (List Char)
  | _, [] => [[]]
  | 0, l => [l]
  | fuel + 1, c :: cs =>
    if startsL sep (c :: cs) then
      [] :: splitGo sep fuel ((c :: cs).drop sep.length)
    else
      match splitGo sep fuel cs with
      | [] => [[c]]
      | h :: t => (c :: h) :: t

/-- `str.split(sep)` for a non-empty separator. -/
def splitOnL (sep l : List Char) : List (List Char) :=
  splitGo sep l.length l

/-- Name isolation (source lines 369-375): if the fragment's HTML contains
`<br>`, take the text between the first `<br>` and the next `</a>` and strip
it; otherwise take (and strip) the second line of the plain text, or the
whole plain text unstripped when it has no line break. -/
def namePart (f : Fragment) : String :=
  if hasSub "<br>".data f.html.data then
    String.mk (pyStripL ((splitOnL "</a>".data ((splitOnL "<br>".data f.html.data).getD 1 [])).getD 0 []))
  else if f.text.data.contains '\n' then
    String.mk (pyStripL ((splitOnL ['\n'] f.text.data).getD 1 []))
  else f.text

/-- One attempt of the Name Pattern regex
`(\S+)[\s　](\S+)[\s　]様` at a fixed start position.  Both `\S+` groups are
forced to be maximal non-whitespace runs (any shorter run is followed by a
non-whitespace character, so the mandatory `[\s　]` would fail), after which
one whitespace character and the literal `様` must follow the second group. -/
def tryNameAt (cs : List Char) : Option (List Char × List Char) :=
  let t1 := cs.takeWhile (fun c => !(isPySpace c))
  if t1.isEmpty then none
  else
    match cs.drop t1.length with
    | [] => none
    | _w :: rest =>
      let t2 := rest.takeWhile (fun c => !(isPySpace c))
      if t2.isEmpty then none
      else
        match rest.drop t2.length with
        | _w2 :: c :: _ => if c == '様' then some (t1, t2) else none
        | _ => none

/-- `re.search` for the Name Pattern: try every start position left to
right; the groups are (family_name, given_name). -/
def searchName : List Char → Option (List Char × List Char)
  | [] => none
  | c :: cs =>
    match tryNameAt (c :: cs) with
    | some r => some r
    | none => searchName cs

/-! ### The Classifier (source lines 387-392 and the if/elif chain) -/

/-- `'追' in family_name` (source line 390). -/
def has_tsui (s : String) : Bool := s.data.contains '追'

/-- `re.search(r'[0-9]', family_name)` (source line 388); ASCII digits. -/
def hasDigit (s : String) : Bool := s.data.any Char.isDigit

/-- `re.match(r'^[^0-9]*0[^0-9]*$', family_name)` (source line 392): a
maximal digit-free prefix, then the single digit `0`, then a digit-free
tail reaching the end of the string. -/
def is_zero_only (s : String) : Bool :=
  match s.data.dropWhile (fun c => !(Char.isDigit c)) with
  | c :: rest => c == '0' && rest.all (fun c => !(Char.isDigit c))
  | [] => false

inductive Bucket where
  | flagged
  | zeroOnly
  | numeric
  | normal
deriving DecidableEq

/-- The if/elif chain of source lines 410-491 applied to `family_name`. -/
def classifyFamily (family_name : String) : Bucket :=
  if has_tsui family_name then .flagged
  else if is_zero_only family_name then .zeroOnly
  else if hasDigit family_name then .numeric
  else .normal

/-- `re.search(r'(\d+)(?!.*\d)', family_name)` (source line 437): the
rightmost maximal run of ASCII digits (read off the reversed string). -/
def rightmostDigitRun (cs : List Char) : List Char :=
  ((cs.reverse.dropWhile (fun c => !(Char.isDigit c))).takeWhile Char.isDigit).reverse

/-- `int(number_match.group(1)) if number_match else 999` (source line 438). -/
def extractNumber (cs : List Char) : Nat :=
  let run := rightmostDigitRun cs
  if run.isEmpty then 999 else digitsToNat run

/-! ### Reservation records and the extraction loop

Python per-bucket dicts are embedded as one structure whose optional fields
model keys that are only present in some buckets. -/

structure Rec where
  url : String
  facility : String
  name : String
  mail_month : Nat
  extracted_number : Option Nat
  responder : Option String
  contact_time : Option String
  year : Option Nat
  month : Option Nat
deriving DecidableEq

/-- The collaborators the core receives text from.  `facilityOf` stands for
the facility-pattern resolution of source lines 394-404, `mailMonthOf` for
the notice-month extraction of lines 406-408 (second argument: the scanned
month used as default), `responderOf` for the detail-page responder lookup
of lines 442-469, `fetchContent` for the detail page's 受電内容 text keyed
by URL (`none` models a timeout or a missing element), and `fragsOf` for
the mail elements rendered for a period.  No verified claim depends on the
values these produce, so the embedding is parametric in them. -/
structure Env where
  facilityOf : Fragment → String
  mailMonthOf : Fragment → Nat → Nat
  responderOf : String → String
  fetchContent : String → Option String
  fragsOf : Nat → Nat → List Fragment

/-- The dict built for the flagged / zero-only / normal buckets
(source lines 413-418, 424-429, 486-491). -/
def mkBase (e : Env) (tm : Nat) (f : Fragment) : Rec :=
  { url := f.href, facility := e.facilityOf f, name := pyStrip (namePart f),
    mail_month := e.mailMonthOf f tm, extracted_number := none,
    responder := none, contact_time := none, year := none, month := none }

/-- The dict built for the numeric bucket (source lines 471-478). -/
def mkNumeric (e : Env) (tm : Nat) (f : Fragment) (fam : List Char) : Rec :=
  { mkBase e tm f with
      extracted_number := some (extractNumber fam),
      responder := some (e.responderOf f.href) }

/-- The per-fragment loop of `extract_mail_data` (source lines 356-501):
name isolation, Name Pattern filter, then the flagged / zero-only /
numeric / normal if/elif chain.  The quadruple is
(normal, numeric-unsorted, flagged, zero-only) in encounter order. -/
def extractLoop (e : Env) (tm : Nat) :
    List Fragment → List Rec × List Rec × List Rec × List Rec
  | [] => ([], [], [], [])
  | f :: fs =>
    let rest := extractLoop e tm fs
    match searchName (namePart f).data with
    | none => rest
    | some (fam, _giv) =>
      let famS := String.mk fam
      if has_tsui famS then
        (rest.1, rest.2.1, mkBase e tm f :: rest.2.2.1, rest.2.2.2)
      else if is_zero_only famS then
        (rest.1, rest.2.1, rest.2.2.1, mkBase e tm f :: rest.2.2.2)
      else if hasDigit famS then
        (rest.1, mkNumeric e tm f fam :: rest.2.1, rest.2.2.1, rest.2.2.2)
      else
        (mkBase e tm f :: rest.1, rest.2.1, rest.2.2.1, rest.2.2.2)

/-- `x.get('extracted_number', 999)`: the numeric sort key. -/
def keyNum (r : Rec) : Nat := r.extracted_number.getD 999

/-- The comparison behind `sorted(..., key=lambda x: x.get('extracted_number', 999))`. -/
def numLe (a b : Rec) : Bool := decide (keyNum a ≤ keyNum b)

/-- `extract_mail_data` (source lines 330-527): run the loop, then return
the numeric bucket stable-sorted by `extracted_number` (source line 515). -/
def extract_mail_data (e : Env) (tm : Nat) (frags : List Fragment) :
    List Rec × List Rec × List Rec × List Rec :=
  let r := extractLoop e tm frags
  (r.1, isort numLe r.2.1, r.2.2.1, r.2.2.2)

/-- Which fragments pass the Name Pattern filter. -/
def nameMatches (f : Fragment) : Bool := (searchName (namePart f).data).isSome

/-- The family-name group the Name Pattern captures (junk when no match). -/
def famOf (f : Fragment) : List Char :=
  ((searchName (namePart f).data).map Prod.fst).getD []

/-- The bucket a fragment is routed to, `none` when it is filtered out. -/
def fragBucket (f : Fragment) : Option Bucket :=
  (searchName (namePart f).data).map (fun fg => classifyFamily (String.mk fg.1))

/-- Membership of a fragment in one given bucket. -/
def inBucket (b : Bucket) (f : Fragment) : Bool :=
  decide (fragBucket f = some b)

/-! ### The Contact-Time Resolver (`extract_contact_time`, source lines 533-598) -/

/-- The literal label `連絡可能時間：`. -/
def contactLabel : List Char := "連絡可能時間：".data

/-- The suffix after the first occurrence of `pat`, scanning left to right. -/
def dropAfterFirst (pat : List Char) : List Char → Option (List Char)
  | [] => none
  | c :: cs =>
    if startsL pat (c :: cs) then some ((c :: cs).drop pat.length)
    else dropAfterFirst pat cs

/-- The lazy group `(.*?)(?:<br>|\n)`: the characters up to the first
position where the literal `<br>` starts or a line break sits; `none` when
no such terminator exists (`.` does not cross a line break, so the group is
only captured when terminated). -/
def captureToBreak : List Char → Option (List Char)
  | [] => none
  | c :: cs =>
    if startsL "<br>".data (c :: cs) then some []
    else if c == '\n' then some []
    else (captureToBreak cs).map (fun l => c :: l)

/-- `re.search(r'連絡可能時間：(.*?)(?:<br>|\n)', content)` (source line
555).  A later occurrence of the label can only match if a terminator
follows it, and such a terminator also follows the first occurrence, so
searching from the first occurrence is exact. -/
def findContactRaw (cs : List Char) : Option (List Char) :=
  (dropAfterFirst contactLabel cs).bind captureToBreak

/-- The closed, ordered canonical slot-label list (source lines 562-574). -/
def time_patterns : List String :=
  ["いつでも可能", "10時から11時", "11時から12時", "12時から13時",
   "13時から14時", "14時から15時", "15時から16時", "16時から17時",
   "17時から18時", "18時から19時", "19時から20時"]

/-- The priority loop of source lines 577-580: first listed pattern that is
a substring of the extracted value. -/
def firstMatch (v : List Char) : List String → Option String
  | [] => none
  | p :: ps => if hasSub p.data v then some p else firstMatch v ps

/-- `extract_contact_time`: the argument is the detail page's 受電内容 text
(`none` models the timeout / missing-element / error paths, all of which
return `不明`).  When the label regex captures a value, the stripped value
is matched against the canonical patterns in order; an unmatched value is
returned verbatim (source lines 577-587). -/
def extract_contact_time (content : Option String) : String :=
  match content with
  | none => "不明"
  | some t =>
    match findContactRaw t.data with
    | none => "不明"
    | some raw =>
      let v := pyStripL raw
      match firstMatch v time_patterns with
      | some p => p
      | none => String.mk v

/-! ### The Aggregator (the 3-period loop of `main`, source lines 1722-1806) -/

/-- Period `i` of the window (source lines 1724-1731). -/
def periodKey (sy sm i : Nat) : Nat × Nat :=
  if sm + i > 12 then (sy + 1, sm + i - 12) else (sy, sm + i)

/-- Year/month stamping plus the `記載無し` default for the numeric,
flagged and zero-only buckets (source lines 1766-1800). -/
def stampSkip (y m : Nat) (r : Rec) : Rec :=
  { r with year := some y, month := some m, contact_time := some "記載無し" }

/-- Year/month stamping plus contact-time resolution for the normal bucket
(source lines 1750-1757). -/
def stampNormal (e : Env) (y m : Nat) (r : Rec) : Rec :=
  { r with contact_time := some (extract_contact_time (e.fetchContent r.url)),
           year := some y, month := some m }

/-- One period: extract, resolve contact times for the normal bucket,
stamp.  (A period with four empty buckets is skipped by the source's
`continue`, which is observably the same as stamping nothing.) -/
def runPeriod (e : Env) (y m : Nat) :
    List Rec × List Rec × List Rec × List Rec :=
  let r := extract_mail_data e m (e.fragsOf y m)
  (r.1.map (stampNormal e y m), r.2.1.map (stampSkip y m),
   r.2.2.1.map (stampSkip y m), r.2.2.2.map (stampSkip y m))

/-- The whole 3-period window, each period's output appended in order
(source lines 1802-1806). -/
def runAll (e : Env) (sy sm : Nat) :
    List Rec × List Rec × List Rec × List Rec :=
  let p0 := runPeriod e (periodKey sy sm 0).1 (periodKey sy sm 0).2
  let p1 := runPeriod e (periodKey sy sm 1).1 (periodKey sy sm 1).2
  let p2 := runPeriod e (periodKey sy sm 2).1 (periodKey sy sm 2).2
  (p0.1 ++ p1.1 ++ p2.1,
   p0.2.1 ++ p1.2.1 ++ p2.2.1,
   p0.2.2.1 ++ p1.2.2.1 ++ p2.2.2.1,
   p0.2.2.2 ++ p1.2.2.2 ++ p2.2.2.2)

/-! ### The grouped structure of `generate_html_report`
(source lines 645-678 and 1032-1042) -/

/-- The `time_slots` dict literal (source lines 645-662), as an association
list in insertion order; the numeric bucket enters already sorted by
`extracted_number`. -/
def initialSlots (num tsui zero : List Rec) : List (String × List Rec) :=
  [("数字付き", isort numLe num), ("記載無し", []), ("いつでも可能", []),
   ("10時から11時", []), ("11時から12時", []), ("12時から13時", []),
   ("13時から14時", []), ("14時から15時", []), ("15時から16時", []),
   ("16時から17時", []), ("17時から18時", []), ("18時から19時", []),
   ("19時から20時", []), ("追M", tsui), ("その他", []), ("対応不要", zero)]

/-- The dict's key view. -/
def slotKeys (ts : List (String × List Rec)) : List String := ts.map Prod.fst

/-- `time_slots[k].append(r)`. -/
def appendSlot (ts : List (String × List Rec)) (k : String) (r : Rec) :
    List (String × List Rec) :=
  ts.map (fun kv => if kv.1 = k then (kv.1, kv.2 ++ [r]) else kv)

/-- The classification loop body for one normal-bucket record (source lines
664-678): rename `不明` to `記載無し` (also on the record itself), then
append under the record's contact time when it is an existing key, and
under `その他` otherwise. -/
def classifyInto (ts : List (String × List Rec)) (d : Rec) :
    List (String × List Rec) :=
  let ct0 := d.contact_time.getD "記載無し"
  let ct := if ct0 = "不明" then "記載無し" else ct0
  let d' := if ct0 = "不明" then { d with contact_time := some "記載無し" } else d
  if (slotKeys ts).contains ct then appendSlot ts ct d' else appendSlot ts "その他" d'

/-- The populated `time_slots` dict. -/
def buildSlots (normal num tsui zero : List Rec) : List (String × List Rec) :=
  normal.foldl classifyInto (initialSlots num tsui zero)

/-- `(x.get('year', 0), x.get('month', 0))` tuple comparison
(source line 1042). -/
def ymLe (a b : Rec) : Bool :=
  decide (a.year.getD 0 < b.year.getD 0) ||
    (decide (a.year.getD 0 = b.year.getD 0) && decide (a.month.getD 0 ≤ b.month.getD 0))

/-- The per-slot `slot_data.sort(...)` of source lines 1032-1042: every
slot except `数字付き` is stable-sorted by `(year, month)` in place. -/
def renderSlots (ts : List (String × List Rec)) : List (String × List Rec) :=
  ts.map (fun kv => if kv.1 = "数字付き" then kv else (kv.1, isort ymLe kv.2))

/-- The grouped structure `generate_html_report` renders. -/
def generate_html_report (normal num tsui zero : List Rec) :
    List (String × List Rec) :=
  renderSlots (buildSlots normal num tsui zero)

/-- End-to-end: extraction window plus report grouping. -/
def pipeline (e : Env) (sy sm : Nat) : List (String × List Rec) :=
  let r := runAll e sy sm
  generate_html_report r.1 r.2.1 r.2.2.1 r.2.2.2

/-! ### Process exit (source lines 68-72, 1681-1836, 1838-1839) -/

/-- How one run of `main` ends: login failure returns 1 (line 1714), an
exception caught by the outer handler returns 1 (line 1832), success
returns 0 whether or not any record was extracted (lines 1820, 1826). -/
inductive RunOutcome where
  | loginFailed
  | zeroRecords
  | reportDone
  | fatalError
deriving DecidableEq

/-- The value `main()` returns. -/
def main_result : RunOutcome → Nat
  | .loginFailed => 1
  | .zeroRecords => 0
  | .reportDone => 0
  | .fatalError => 1

/-- The `if __name__ == "__main__": main()` block (lines 1838-1839): the
value `main` returns is an expression statement, so it is discarded and the
interpreter exits with status 0. -/
def dunder_main (o : RunOutcome) : Nat :=
  (fun _r => 0) (main_result o)

/-- The process exit status: the module-level environment check calls
`sys.exit(1)` when configuration is missing (lines 68-72); otherwise the
status is whatever the `__main__` block produces. -/
def process_exit (envOk : Bool) (o : RunOutcome) : Nat :=
  if envOk then dunder_main o else 1

/-! ### Views used by the claims -/

/-- `time_slots[k]` as a lookup on the association list. -/
def slotGet (k : String) : List (String × List Rec) → Option (List Rec)
  | [] => none
  | kv :: ts => if kv.1 = k then some kv.2 else slotGet k ts

/-- The numeric-bucket records in discovery order: for each period, the
extraction loop's numeric bucket (before any sort), stamped, oldest period
first. -/
def numericDiscovery (e : Env) (sy sm : Nat) : List Rec :=
  let k0 := periodKey sy sm 0
  let k1 := periodKey sy sm 1
  let k2 := periodKey sy sm 2
  ((extractLoop e k0.2 (e.fragsOf k0.1 k0.2)).2.1.map (stampSkip k0.1 k0.2)) ++
  ((extractLoop e k1.2 (e.fragsOf k1.1 k1.2)).2.1.map (stampSkip k1.1 k1.2)) ++
  ((extractLoop e k2.2 (e.fragsOf k2.1 k2.2)).2.1.map (stampSkip k2.1 k2.2))

/-- A collaborator environment with no fragments and no detail pages, used
to evaluate the pipeline on explicit inputs. -/
def envTriv : Env :=
  { facilityOf := fun _ => "不明", mailMonthOf := fun _ tm => tm,
    responderOf := fun _ => "", fetchContent := fun _ => none,
    fragsOf := fun _ _ => [] }

/-- A fragment whose isolated name substring is `田中 花子様`
(one space, honorific directly attached). -/
def fragNoSpace : Fragment :=
  { html := "<a href=u>宇都宮 10:00<br>田中 花子様</a>", href := "u", text := "" }

/-- A fragment whose isolated name substring is `田中 花子 様`
(a space before the honorific, as the Name Pattern requires). -/
def fragSpaced : Fragment :=
  { html := "<a href=u>宇都宮 10:00<br>田中 花子 様</a>", href := "u", text := "" }

/-- A normal-bucket fragment whose detail page carries a free-text contact
time matching no canonical label. -/
def fragOther : Fragment :=
  { html := "<a href=u1>高松 11:30<br>山田 太郎 様</a>", href := "u1", text := "" }

/-- A numeric-bucket fragment: family name `田中5`. -/
def fragNum : Fragment :=
  { html := "<a href=u2>博多 12:00<br>田中5 花子 様</a>", href := "u2", text := "" }

/-- A concrete collaborator environment: one normal fragment in the first
period, detail page resolving to the non-canonical text `朝のみ`. -/
def envOther : Env :=
  { facilityOf := fun _ => "高松", mailMonthOf := fun _ tm => tm,
    responderOf := fun _ => "",
    fetchContent := fun u => if u = "u1" then some "受電内容 連絡可能時間：朝のみ\n以上" else none,
    fragsOf := fun y m => if y = 2024 && m = 5 then [fragOther] else [] }

/-! ## Classifier lemmas -/

theorem zero_only_chars (l : List Char) :
    (match l.dropWhile (fun c => !(Char.isDigit c)) with
     | c :: rest => c == '0' && rest.all (fun c => !(Char.isDigit c))
     | [] => false) = true ↔ l.filter Char.isDigit = ['0'] := by
  induction l with
  | nil => simp
  | cons c l ih =>
    by_cases hc : Char.isDigit c
    · rw [List.dropWhile_cons_of_neg (by simp [hc]), List.filter_cons_of_pos hc]
      constructor
      · intro h
        have h' : c = '0' ∧ ∀ a ∈ l, ¬ Char.isDigit a = true := by
          simpa using h
        have : l.filter Char.isDigit = [] := List.filter_eq_nil_iff.mpr h'.2
        rw [h'.1, this]
      · intro h
        have hc0 : c = '0' := List.head_eq_of_cons_eq h
        have htl : l.filter Char.isDigit = [] := List.tail_eq_of_cons_eq h
        have h2 := List.filter_eq_nil_iff.mp htl
        simp [hc0]
        intro a ha
        simpa using h2 a ha
    · rw [List.dropWhile_cons_of_pos (by simp [hc]), List.filter_cons_of_neg hc]
      exact ih

theorem is_zero_only_iff (s : String) :
    is_zero_only s = true ↔ s.data.filter Char.isDigit = ['0'] :=
  zero_only_chars s.data

theorem classifyFamily_eq_zeroOnly (s : String) :
    classifyFamily s = .zeroOnly ↔ (has_tsui s = false ∧ is_zero_only s = true) := by
  unfold classifyFamily
  by_cases h1 : has_tsui s = true
  · simp [h1]
  · by_cases h2 : is_zero_only s = true
    · simp [h1, h2]
    · by_cases h3 : hasDigit s = true
      · simp [h1, h2, h3]
      · simp [h1, h2, h3]

/-! ## Claim C2 (corrected)

The spec claims the zero-only bucket is reached exactly when every digit of
`family_name` is a zero, however many zeros there are.  The regex
`^[^0-9]*0[^0-9]*$` accepts exactly one `0`: a family name such as `田中00`
has only zero digits and is nevertheless routed to the numeric bucket. -/

/-- C2 counterexample: for `family_name = "田中00"` (two zeros, no other
digit) the claimed equivalence "zero-only bucket iff at least one digit and
all digits are zero" is false: the record is classified as numeric. -/
theorem C2_zero_only_counterexample :
    ¬ (classifyFamily "田中00" = .zeroOnly ↔
        (hasDigit "田中00" = true ∧
          ∀ c ∈ "田中00".data.filter Char.isDigit, c = '0')) := by
  decide

/-- C2 amended: a record is classified into the zero-only bucket exactly
when its family name does not contain the follow-up glyph `追` and its
digit subsequence is exactly the single character `0` (one digit, equal to
zero); with two or more zeros the precedence chain falls through to the
numeric branch. -/
theorem C2_zero_only_amended (fam : String) :
    classifyFamily fam = .zeroOnly ↔
      (has_tsui fam = false ∧ fam.data.filter Char.isDigit = ['0']) :=
  (classifyFamily_eq_zeroOnly fam).trans
    (and_congr_right fun _ => is_zero_only_iff fam)

/-! ## Claim C8 (code bug)

`main` returns 1 on a fatal error (source lines 1714, 1832) and 0 on
success, a return-code idiom the spec's exit-status contract describes; but
the `__main__` block calls `main()` as a bare expression statement, so the
returned status is discarded and the interpreter exits 0 whenever the
module-level configuration check passed. -/

/-- C8: the configuration-error path does exit 1, and a run with zero
records does exit 0, but a fatal processing error also yields process exit
status 0 even though `main` returned 1 — contradicting the claimed
non-zero exit status for fatal errors. -/
theorem C8_exit_status :
    main_result .fatalError = 1 ∧ process_exit true .fatalError = 0 ∧
    main_result .loginFailed = 1 ∧ process_exit true .loginFailed = 0 ∧
    process_exit false .fatalError = 1 ∧ process_exit false .reportDone = 1 ∧
    process_exit true .zeroRecords = 0 ∧ process_exit true .reportDone = 0 := by
  decide

/-! ## Claim C4 (corrected)

The Name Pattern `(\S+)[\s　](\S+)[\s　]様` demands a whitespace character
between the second token and `様`.  The spec's scenario string
`田中 花子様` has the honorific attached to the given name, so the pattern
does not match and the fragment is silently dropped. -/

/-- C4 counterexample: for the isolated name substring `田中 花子様` the
Name Pattern does not match, and a fragment carrying it produces no record
in any bucket — contradicting the claimed normal-bucket placement. -/
theorem C4_name_pattern_counterexample :
    searchName "田中 花子様".data = none ∧
    namePart fragNoSpace = "田中 花子様" ∧
    extract_mail_data envTriv 7 [fragNoSpace] = ([], [], [], []) := by
  decide

/-- C4 amended: the Name Pattern additionally requires a whitespace
character before the honorific.  For the isolated name substring
`田中 花子 様` the pattern matches with `family_name = 田中`,
`given_name = 花子`, the fragment is kept, and the record lands in the
normal bucket; the spacing-less variant `田中 花子様` is discarded. -/
theorem C4_name_pattern_amended :
    searchName "田中 花子 様".data = some ("田中".data, "花子".data) ∧
    fragBucket fragSpaced = some .normal ∧
    extract_mail_data envTriv 7 [fragSpaced] =
      ([{ url := "u", facility := "不明", name := "田中 花子 様", mail_month := 7,
          extracted_number := none, responder := none, contact_time := none,
          year := none, month := none }], [], [], []) := by
  decide

/-! ## Claim C5 (code bug)

The source's own comment at line 482 says the name is cleaned by deleting
whitespace and the honorific `様`, and the spec repeats that contract; but
the code only calls `name_part.strip()`, which removes surrounding
whitespace and never removes `様`.  Every record produced therefore keeps
the honorific inside its `name` field. -/

/-- C5: at the failing input (a fragment whose isolated name substring is
`田中 花子 様`) the produced record's `name` field is `田中 花子 様`, which
still contains the honorific particle `様` — contradicting the claim that
`name` contains no honorific particle.  (The no-surrounding-whitespace half
of the claim does hold, via `strip()`.) -/
theorem C5_honorific_kept :
    (extract_mail_data envTriv 7 [fragSpaced]).1.map Rec.name = ["田中 花子 様"] ∧
    '様' ∈ "田中 花子 様".data ∧
    pyStrip "田中 花子 様" = "田中 花子 様" := by
  decide

/-! ## Contact-time lemmas -/

/-- Evaluation rule for `extract_contact_time` on a present detail text. -/
theorem ect_some (t : String) :
    extract_contact_time (some t) =
      (match findContactRaw t.data with
       | none => "不明"
       | some raw =>
         match firstMatch (pyStripL raw) time_patterns with
         | some p => p
         | none => String.mk (pyStripL raw)) := rfl

theorem captureToBreak_none (l : List Char)
    (hn : '\n' ∉ l) (hb : hasSub "<br>".data l = false) :
    captureToBreak l = none := by
  induction l with
  | nil => rfl
  | cons c cs ih =>
    have hb1 : startsL "<br>".data (c :: cs) = false := by
      cases h2 : startsL "<br>".data (c :: cs)
      · rfl
      · exfalso
        have h3 : hasSub "<br>".data (c :: cs) = true := by
          unfold hasSub
          simp [h2]
        rw [h3] at hb
        exact absurd hb (by simp)
    have hb2 : hasSub "<br>".data cs = false := by
      cases h2 : hasSub "<br>".data cs
      · rfl
      · exfalso
        have h3 : hasSub "<br>".data (c :: cs) = true := by
          unfold hasSub
          simp [h2]
        rw [h3] at hb
        exact absurd hb (by simp)
    have hc : (c == '\n') = false := by
      have : c ≠ '\n' := fun h => hn (h ▸ List.mem_cons_self c cs)
      simpa using this
    have hn2 : '\n' ∉ cs := fun h => hn (List.mem_cons_of_mem c h)
    unfold captureToBreak
    rw [hb1]
    simp only [Bool.false_eq_true, if_false]
    rw [hc]
    simp only [Bool.false_eq_true, if_false]
    rw [ih hn2 hb2]
    rfl

/-! ## Claim C10 (confirmed)

The value regex `連絡可能時間：(.*?)(?:<br>|\n)` only captures when a
terminator follows: with the label present but no line break (and no
literal `<br>`) anywhere after it, resolution falls to `不明`. -/

/-- C10: when the detail text contains the label `連絡可能時間：` but the
remainder after the first occurrence of the label contains neither a line
break nor the literal text `<br>`, `extract_contact_time` returns `不明`
even though the label and a value are present. -/
theorem C10_no_terminator (t : String) (suf : List Char)
    (hlab : dropAfterFirst contactLabel t.data = some suf)
    (hn : '\n' ∉ suf)
    (hb : hasSub "<br>".data suf = false) :
    extract_contact_time (some t) = "不明" := by
  rw [ect_some]
  have h4 : findContactRaw t.data = none := by
    unfold findContactRaw
    rw [hlab]
    simp [Option.bind, captureToBreak_none suf hn hb]
  rw [h4]

/-- C10 witness: the concrete detail text `受電内容 連絡可能時間：午後なら可`
carries the label and the value `午後なら可` but no terminator, and resolves
to `不明`. -/
theorem C10_no_terminator_witness :
    extract_contact_time (some "受電内容 連絡可能時間：午後なら可") = "不明" :=
  C10_no_terminator "受電内容 連絡可能時間：午後なら可" "午後なら可".data
    (by decide) (by decide) (by decide)

/-! ## Claim C6 (corrected)

The resolver behaves as claimed — fixed priority list, first containment
match, `不明` on any lookup failure, total — but the claimed count of slot
labels is wrong: the source list (lines 564-573) holds the anytime label
followed by ten consecutive one-hour slots (start times 10時 through
19時), not eleven. -/

/-- C6 counterexample: the canonical list contains the anytime label plus
ten one-hour slot labels, eleven entries in all — not the twelve entries
(anytime plus eleven slots) the claim describes. -/
theorem C6_slot_count_counterexample :
    time_patterns.length = 11 ∧
    (time_patterns.filter (fun p => p != "いつでも可能")).length = 10 ∧
    ¬ time_patterns.length = 12 := by
  decide

theorem firstMatch_none_iff (v : List Char) (ps : List String) :
    firstMatch v ps = none ↔ ∀ p ∈ ps, hasSub p.data v = false := by
  induction ps with
  | nil => simp [firstMatch]
  | cons p ps ih =>
    unfold firstMatch
    by_cases h : hasSub p.data v = true
    · simp [h]
    · have h' : hasSub p.data v = false := by
        cases h2 : hasSub p.data v
        · rfl
        · exact absurd h2 h
      simp [h', ih]

theorem firstMatch_some_split (v : List Char) (ps : List String) (q : String)
    (h : firstMatch v ps = some q) :
    ∃ l1 l2, ps = l1 ++ q :: l2 ∧ hasSub q.data v = true ∧
      ∀ x ∈ l1, hasSub x.data v = false := by
  induction ps with
  | nil => exact absurd h (by simp [firstMatch])
  | cons p ps ih =>
    unfold firstMatch at h
    by_cases hp : hasSub p.data v = true
    · rw [hp] at h
      simp at h
      subst h
      exact ⟨[], ps, rfl, hp, fun x hx => absurd hx (List.not_mem_nil x)⟩
    · have hp' : hasSub p.data v = false := by
        cases h2 : hasSub p.data v
        · rfl
        · exact absurd h2 hp
      rw [hp'] at h
      simp at h
      rcases ih h with ⟨l1, l2, he, hq, hl1⟩
      refine ⟨p :: l1, l2, by simp [he], hq, ?_⟩
      intro x hx
      rcases List.mem_cons.mp hx with hx | hx
      · rw [hx]
        exact hp'
      · exact hl1 x hx

/-- C6 amended: the resolver's canonical list is exactly the `anytime`
label followed by the ten consecutive one-hour slots from 10時から11時
through 19時から20時; a missing detail page resolves to `不明`, a detail text in
which the label regex captures nothing resolves to `不明`, and whenever the
captured (stripped) value contains some canonical label, the result is the
first canonical label (in list order) contained in the value.  The function
is total, so no lookup outcome aborts the batch. -/
theorem C6_contact_time_priority :
    time_patterns =
      ["いつでも可能", "10時から11時", "11時から12時", "12時から13時",
       "13時から14時", "14時から15時", "15時から16時", "16時から17時",
       "17時から18時", "18時から19時", "19時から20時"] ∧
    extract_contact_time none = "不明" ∧
    (∀ t : String, findContactRaw t.data = none →
      extract_contact_time (some t) = "不明") ∧
    (∀ t : String, ∀ raw : List Char, findContactRaw t.data = some raw →
      ∀ p ∈ time_patterns, hasSub p.data (pyStripL raw) = true →
        ∃ l1 l2 q, time_patterns = l1 ++ q :: l2 ∧
          hasSub q.data (pyStripL raw) = true ∧
          (∀ x ∈ l1, hasSub x.data (pyStripL raw) = false) ∧
          extract_contact_time (some t) = q) := by
  refine ⟨rfl, rfl, ?_, ?_⟩
  · intro t h
    rw [ect_some, h]
  · intro t raw hraw p hp hsub
    have hfm : ∃ q, firstMatch (pyStripL raw) time_patterns = some q := by
      cases hq : firstMatch (pyStripL raw) time_patterns
      · have := (firstMatch_none_iff (pyStripL raw) time_patterns).mp hq p hp
        rw [hsub] at this
        exact absurd this (by simp)
      · exact ⟨_, rfl⟩
    rcases hfm with ⟨q, hq⟩
    rcases firstMatch_some_split (pyStripL raw) time_patterns q hq with
      ⟨l1, l2, he, hqv, hl1⟩
    refine ⟨l1, l2, q, he, hqv, hl1, ?_⟩
    rw [ect_some, hraw]
    simp only [hq]

/-- C6 witness: at the concrete detail text
`連絡可能時間：なるべく14時から15時で\n`, whose value contains the canonical
label `14時から15時`, the resolver returns that label with every
earlier-priority label absent from the value; and the missing-field cases
return `不明`. -/
theorem C6_contact_time_priority_witness :
    extract_contact_time (some "x連絡可能時間：なるべく14時から15時で\ny") = "14時から15時" ∧
    extract_contact_time (some "時間の記載なし") = "不明" := by
  constructor
  · rcases C6_contact_time_priority.2.2.2 "x連絡可能時間：なるべく14時から15時で\ny"
      "なるべく14時から15時で".data (by decide) "14時から15時"
      (by decide) (by decide) with ⟨l1, l2, q, he, hqv, hl1, hres⟩
    rw [hres]
    have hall : ∀ q' ∈ time_patterns,
        hasSub q'.data (pyStripL "なるべく14時から15時で".data) = true →
          q' = "14時から15時" := by
      decide
    have hmem : q ∈ time_patterns := by
      rw [he]
      exact List.mem_append_right l1 (List.mem_cons_self q l2)
    exact hall q hmem hqv
  · exact C6_contact_time_priority.2.2.1 "時間の記載なし" (by decide)

/-! ## Extraction-loop lemmas (shared by the partition and ordering claims) -/

theorem classifyFamily_eq_flagged (s : String) :
    classifyFamily s = .flagged ↔ has_tsui s = true := by
  unfold classifyFamily
  by_cases h1 : has_tsui s = true
  · simp [h1]
  · by_cases h2 : is_zero_only s = true
    · simp [h1, h2]
    · by_cases h3 : hasDigit s = true
      · simp [h1, h2, h3]
      · simp [h1, h2, h3]

theorem classifyFamily_eq_numeric (s : String) :
    classifyFamily s = .numeric ↔
      (has_tsui s = false ∧ is_zero_only s = false ∧ hasDigit s = true) := by
  unfold classifyFamily
  by_cases h1 : has_tsui s = true
  · simp [h1]
  · by_cases h2 : is_zero_only s = true
    · simp [h1, h2]
    · by_cases h3 : hasDigit s = true
      · simp [h1, h2, h3]
      · simp [h1, h2, h3]

theorem classifyFamily_eq_normal (s : String) :
    classifyFamily s = .normal ↔
      (has_tsui s = false ∧ is_zero_only s = false ∧ hasDigit s = false) := by
  unfold classifyFamily
  by_cases h1 : has_tsui s = true
  · simp [h1]
  · by_cases h2 : is_zero_only s = true
    · simp [h1, h2]
    · by_cases h3 : hasDigit s = true
      · simp [h1, h2, h3]
      · simp [h1, h2, h3]

theorem extractLoop_eq (e : Env) (tm : Nat) (frags : List Fragment) :
    extractLoop e tm frags =
      ((frags.filter (inBucket .normal)).map (mkBase e tm),
       (frags.filter (inBucket .numeric)).map (fun f => mkNumeric e tm f (famOf f)),
       (frags.filter (inBucket .flagged)).map (mkBase e tm),
       (frags.filter (inBucket .zeroOnly)).map (mkBase e tm)) := by
  induction frags with
  | nil => rfl
  | cons f fs ih =>
    simp only [extractLoop]
    rw [ih]
    cases hs : searchName (namePart f).data with
    | none =>
      have hfb : fragBucket f = none := by
        unfold fragBucket
        rw [hs]
        rfl
      have hnorm : inBucket .normal f = false := by simp [inBucket, hfb]
      have hnum : inBucket .numeric f = false := by simp [inBucket, hfb]
      have hflag : inBucket .flagged f = false := by simp [inBucket, hfb]
      have hzero : inBucket .zeroOnly f = false := by simp [inBucket, hfb]
      simp [List.filter_cons, hnorm, hnum, hflag, hzero]
    | some fg =>
      obtain ⟨fam, giv⟩ := fg
      have hfb : fragBucket f = some (classifyFamily (String.mk fam)) := by
        unfold fragBucket
        rw [hs]
        rfl
      have hfam : famOf f = fam := by
        unfold famOf
        rw [hs]
        rfl
      by_cases h1 : has_tsui (String.mk fam) = true
      · have hcf : classifyFamily (String.mk fam) = .flagged :=
          (classifyFamily_eq_flagged (String.mk fam)).mpr h1
        rw [hcf] at hfb
        have hnorm : inBucket .normal f = false := by simp [inBucket, hfb]
        have hnum : inBucket .numeric f = false := by simp [inBucket, hfb]
        have hflag : inBucket .flagged f = true := by simp [inBucket, hfb]
        have hzero : inBucket .zeroOnly f = false := by simp [inBucket, hfb]
        simp [h1, List.filter_cons, hnorm, hnum, hflag, hzero]
      · by_cases h2 : is_zero_only (String.mk fam) = true
        · have hcf : classifyFamily (String.mk fam) = .zeroOnly := by
            rw [classifyFamily_eq_zeroOnly]
            exact ⟨by simpa using h1, h2⟩
          rw [hcf] at hfb
          have hnorm : inBucket .normal f = false := by simp [inBucket, hfb]
          have hnum : inBucket .numeric f = false := by simp [inBucket, hfb]
          have hflag : inBucket .flagged f = false := by simp [inBucket, hfb]
          have hzero : inBucket .zeroOnly f = true := by simp [inBucket, hfb]
          simp [h1, h2, List.filter_cons, hnorm, hnum, hflag, hzero]
        · by_cases h3 : hasDigit (String.mk fam) = true
          · have hcf : classifyFamily (String.mk fam) = .numeric := by
              rw [classifyFamily_eq_numeric]
              exact ⟨by simpa using h1, by simpa using h2, h3⟩
            rw [hcf] at hfb
            have hnorm : inBucket .normal f = false := by simp [inBucket, hfb]
            have hnum : inBucket .numeric f = true := by simp [inBucket, hfb]
            have hflag : inBucket .flagged f = false := by simp [inBucket, hfb]
            have hzero : inBucket .zeroOnly f = false := by simp [inBucket, hfb]
            simp [h1, h2, h3, List.filter_cons, hnorm, hnum, hflag, hzero, hfam]
          · have hcf : classifyFamily (String.mk fam) = .normal := by
              rw [classifyFamily_eq_normal]
              exact ⟨by simpa using h1, by simpa using h2, by simpa using h3⟩
            rw [hcf] at hfb
            have hnorm : inBucket .normal f = true := by simp [inBucket, hfb]
            have hnum : inBucket .numeric f = false := by simp [inBucket, hfb]
            have hflag : inBucket .flagged f = false := by simp [inBucket, hfb]
            have hzero : inBucket .zeroOnly f = false := by simp [inBucket, hfb]
            simp [h1, h2, h3, List.filter_cons, hnorm, hnum, hflag, hzero]

theorem bucket_count (frags : List Fragment) :
    (frags.filter (inBucket .normal)).length +
    (frags.filter (inBucket .numeric)).length +
    (frags.filter (inBucket .flagged)).length +
    (frags.filter (inBucket .zeroOnly)).length =
    (frags.filter nameMatches).length := by
  induction frags with
  | nil => rfl
  | cons f fs ih =>
    cases hs : fragBucket f with
    | none =>
      have hm : nameMatches f = false := by
        unfold nameMatches
        unfold fragBucket at hs
        cases h2 : searchName (namePart f).data
        · rfl
        · rw [h2] at hs
          exact absurd hs (by simp)
      have h0 : ∀ b, inBucket b f = false := by
        intro b
        simp [inBucket, hs]
      simp only [List.filter_cons, hm, h0, Bool.false_eq_true, if_false]
      exact ih
    | some b =>
      have hm : nameMatches f = true := by
        unfold nameMatches
        unfold fragBucket at hs
        cases h2 : searchName (namePart f).data
        · rw [h2] at hs
          exact absurd hs (by simp)
        · rfl
      have hb : inBucket b f = true := by simp [inBucket, hs]
      have hnb : ∀ b', b' ≠ b → inBucket b' f = false := by
        intro b' hne
        simp [inBucket, hs]
        exact fun h => absurd h.symm hne
      cases b with
      | flagged =>
        simp only [List.filter_cons, hm, hb, hnb .normal (by simp),
          hnb .numeric (by simp), hnb .zeroOnly (by simp), if_true,
          Bool.false_eq_true, if_false, List.length_cons]
        omega
      | zeroOnly =>
        simp only [List.filter_cons, hm, hb, hnb .normal (by simp),
          hnb .numeric (by simp), hnb .flagged (by simp), if_true,
          Bool.false_eq_true, if_false, List.length_cons]
        omega
      | numeric =>
        simp only [List.filter_cons, hm, hb, hnb .normal (by simp),
          hnb .flagged (by simp), hnb .zeroOnly (by simp), if_true,
          Bool.false_eq_true, if_false, List.length_cons]
        omega
      | normal =>
        simp only [List.filter_cons, hm, hb, hnb .numeric (by simp),
          hnb .flagged (by simp), hnb .zeroOnly (by simp), if_true,
          Bool.false_eq_true, if_false, List.length_cons]
        omega

/-! ## Claim C1 (confirmed)

Classification is a first-match-precedence partition: the extraction output
is exactly the four `fragBucket`-filtered sublists (the numeric one then
stable-sorted), every name-matching fragment is classified, the bucket
function is single-valued, and the four bucket sizes sum to the number of
name-matching fragments — so the buckets are pairwise disjoint and cover
exactly the name-pattern-matching fragments. -/

/-- C1: the four buckets returned by `extract_mail_data` are precisely the
fragments filtered by the first-match precedence classifier
(`追` flagged, then zero-only, then digit, then normal), each fragment
going to exactly one bucket, with bucket sizes summing to the number of
Name-Pattern-matching fragments. -/
theorem C1_partition (e : Env) (tm : Nat) (frags : List Fragment) :
    extract_mail_data e tm frags =
      ((frags.filter (inBucket .normal)).map (mkBase e tm),
       isort numLe ((frags.filter (inBucket .numeric)).map
         (fun f => mkNumeric e tm f (famOf f))),
       (frags.filter (inBucket .flagged)).map (mkBase e tm),
       (frags.filter (inBucket .zeroOnly)).map (mkBase e tm)) ∧
    (∀ f : Fragment, nameMatches f = true ↔
      ∃ b : Bucket, fragBucket f = some b) ∧
    (∀ f : Fragment, ∀ b b' : Bucket,
      fragBucket f = some b → fragBucket f = some b' → b = b') ∧
    (frags.filter (inBucket .normal)).length +
      (frags.filter (inBucket .numeric)).length +
      (frags.filter (inBucket .flagged)).length +
      (frags.filter (inBucket .zeroOnly)).length =
      (frags.filter nameMatches).length := by
  refine ⟨?_, ?_, ?_, bucket_count frags⟩
  · unfold extract_mail_data
    rw [extractLoop_eq]
  · intro f
    unfold nameMatches fragBucket
    cases h2 : searchName (namePart f).data
    · simp
    · simp
  · intro f b b' h h'
    rw [h] at h'
    exact Option.some.inj h'

/-- C1 witness: the partition equalities instantiated on a concrete
two-fragment input, with the classified/unclassified membership facts
discharged on concrete fragments. -/
theorem C1_partition_witness :
    extract_mail_data envTriv 7 [fragNoSpace, fragSpaced] =
      (([fragNoSpace, fragSpaced].filter (inBucket .normal)).map (mkBase envTriv 7),
       isort numLe (([fragNoSpace, fragSpaced].filter (inBucket .numeric)).map
         (fun f => mkNumeric envTriv 7 f (famOf f))),
       ([fragNoSpace, fragSpaced].filter (inBucket .flagged)).map (mkBase envTriv 7),
       ([fragNoSpace, fragSpaced].filter (inBucket .zeroOnly)).map (mkBase envTriv 7)) ∧
    nameMatches fragSpaced = true ∧
    ([fragNoSpace, fragSpaced].filter (inBucket .normal)).length +
      ([fragNoSpace, fragSpaced].filter (inBucket .numeric)).length +
      ([fragNoSpace, fragSpaced].filter (inBucket .flagged)).length +
      ([fragNoSpace, fragSpaced].filter (inBucket .zeroOnly)).length =
      ([fragNoSpace, fragSpaced].filter nameMatches).length := by
  obtain ⟨h1, h2, h3, h4⟩ := C1_partition envTriv 7 [fragNoSpace, fragSpaced]
  exact ⟨h1, (h2 fragSpaced).mpr ⟨.normal, by decide⟩, h4⟩

/-! ## Slot-structure lemmas -/

theorem slotGet_appendSlot_ne (ts : List (String × List Rec)) (k k' : String)
    (r : Rec) (h : k ≠ k') :
    slotGet k (appendSlot ts k' r) = slotGet k ts := by
  induction ts with
  | nil => rfl
  | cons kv ts ih =>
    unfold appendSlot at ih ⊢
    simp only [List.map_cons]
    by_cases h1 : kv.1 = k'
    · unfold slotGet
      simp only [h1, if_true]
      have h2 : ¬ (k' = k) := fun hc => h hc.symm
      rw [if_neg h2, if_neg h2]
      exact ih
    · unfold slotGet
      rw [if_neg h1]
      by_cases h2 : kv.1 = k
      · rw [if_pos h2, if_pos h2]
      · rw [if_neg h2, if_neg h2]
        exact ih

theorem slotGet_classifyInto_ne (ts : List (String × List Rec)) (d : Rec)
    (k : String) (hct : d.contact_time ≠ some k)
    (hk1 : k ≠ "記載無し") (hk2 : k ≠ "その他") :
    slotGet k (classifyInto ts d) = slotGet k ts := by
  unfold classifyInto
  cases hc : d.contact_time with
  | none =>
    simp only [hc, Option.getD_none,
      eq_false (show ¬ (("記載無し" : String) = "不明") by decide), if_false]
    by_cases hmem : (slotKeys ts).contains "記載無し" = true
    · rw [if_pos hmem]
      exact slotGet_appendSlot_ne ts k "記載無し" d hk1
    · rw [if_neg hmem]
      exact slotGet_appendSlot_ne ts k "その他" d hk2
  | some v =>
    simp only [hc, Option.getD_some]
    by_cases hv : v = "不明"
    · simp only [eq_true hv, if_true]
      by_cases hmem : (slotKeys ts).contains "記載無し" = true
      · rw [if_pos hmem]
        exact slotGet_appendSlot_ne ts k "記載無し" _ hk1
      · rw [if_neg hmem]
        exact slotGet_appendSlot_ne ts k "その他" _ hk2
    · simp only [eq_false hv, if_false]
      have hvk : k ≠ v := fun hc2 => hct (by rw [hc, hc2])
      by_cases hmem : (slotKeys ts).contains v = true
      · rw [if_pos hmem]
        exact slotGet_appendSlot_ne ts k v d hvk
      · rw [if_neg hmem]
        exact slotGet_appendSlot_ne ts k "その他" d hk2

theorem slotGet_buildSlots_ne (normal : List Rec)
    (ts : List (String × List Rec)) (k : String)
    (hall : ∀ d ∈ normal, d.contact_time ≠ some k)
    (hk1 : k ≠ "記載無し") (hk2 : k ≠ "その他") :
    slotGet k (normal.foldl classifyInto ts) = slotGet k ts := by
  induction normal generalizing ts with
  | nil => rfl
  | cons d ds ih =>
    simp only [List.foldl_cons]
    rw [ih (classifyInto ts d) (fun x hx => hall x (List.mem_cons_of_mem d hx))]
    exact slotGet_classifyInto_ne ts d k (hall d (List.mem_cons_self d ds)) hk1 hk2

theorem slotGet_renderSlots (ts : List (String × List Rec)) (k : String)
    (hk : k ≠ "数字付き") :
    slotGet k (renderSlots ts) = (slotGet k ts).map (fun l => isort ymLe l) := by
  induction ts with
  | nil => rfl
  | cons kv ts ih =>
    unfold renderSlots at ih ⊢
    simp only [List.map_cons]
    by_cases h1 : kv.1 = "数字付き"
    · rw [if_pos h1]
      unfold slotGet
      have h2 : kv.1 ≠ k := fun hc => hk (hc ▸ h1)
      rw [if_neg h2, if_neg h2]
      exact ih
    · rw [if_neg h1]
      unfold slotGet
      by_cases h2 : kv.1 = k
      · rw [if_pos (by exact h2), if_pos h2]
        rfl
      · rw [if_neg (by exact h2), if_neg h2]
        exact ih

theorem slotGet_renderSlots_num (ts : List (String × List Rec)) :
    slotGet "数字付き" (renderSlots ts) = slotGet "数字付き" ts := by
  induction ts with
  | nil => rfl
  | cons kv ts ih =>
    unfold renderSlots at ih ⊢
    simp only [List.map_cons]
    by_cases h1 : kv.1 = "数字付き"
    · rw [if_pos h1]
      unfold slotGet
      rw [if_pos h1, if_pos h1]
    · rw [if_neg h1]
      unfold slotGet
      rw [if_neg (by exact h1), if_neg h1]
      exact ih

/-! ## Period ordering lemmas -/

theorem pairwise_trivial (R : α → α → Prop) (h : ∀ a b, R a b) (l : List α) :
    l.Pairwise R := by
  induction l with
  | nil => exact .nil
  | cons a l ih => exact .cons (fun b _ => h a b) ih

theorem periodKey_mono (sy sm i j : Nat) (hij : i ≤ j) :
    (periodKey sy sm i).1 < (periodKey sy sm j).1 ∨
      ((periodKey sy sm i).1 = (periodKey sy sm j).1 ∧
        (periodKey sy sm i).2 ≤ (periodKey sy sm j).2) := by
  unfold periodKey
  by_cases h1 : sm + i > 12
  · have h2 : sm + j > 12 := by omega
    rw [if_pos h1, if_pos h2]
    right
    exact ⟨rfl, by simp; omega⟩
  · by_cases h2 : sm + j > 12
    · rw [if_neg h1, if_pos h2]
      left
      simp
    · rw [if_neg h1, if_neg h2]
      right
      exact ⟨rfl, by simp; omega⟩

theorem ymLe_of_keys (a b : Rec) (ya ma yb mb : Nat)
    (ha : a.year = some ya) (ha2 : a.month = some ma)
    (hb : b.year = some yb) (hb2 : b.month = some mb)
    (h : ya < yb ∨ (ya = yb ∧ ma ≤ mb)) : ymLe a b = true := by
  unfold ymLe
  rw [ha, ha2, hb, hb2]
  simp only [Option.getD_some]
  rcases h with h | ⟨h1, h2⟩
  · simp [h]
  · simp [h1, h2]

/-- The concatenation of three period-stamped chunks with lexicographically
nondecreasing period keys is pairwise ordered by the report's
`(year, month)` comparison, so its stable re-sort is the identity. -/
theorem pairwise_ym_stamped (l0 l1 l2 : List Rec) (sy sm : Nat) :
    ((l0.map (stampSkip (periodKey sy sm 0).1 (periodKey sy sm 0).2)) ++
     (l1.map (stampSkip (periodKey sy sm 1).1 (periodKey sy sm 1).2)) ++
     (l2.map (stampSkip (periodKey sy sm 2).1 (periodKey sy sm 2).2))).Pairwise
      (fun x y => ymLe x y = true) := by
  have hmem : ∀ (y m : Nat) (l : List Rec) (r : Rec),
      r ∈ l.map (stampSkip y m) → r.year = some y ∧ r.month = some m := by
    intro y m l r hr
    rcases List.mem_map.mp hr with ⟨x, _, hx⟩
    rw [← hx]
    exact ⟨rfl, rfl⟩
  have hchunk : ∀ (y m : Nat) (l : List Rec),
      (l.map (stampSkip y m)).Pairwise (fun x y' => ymLe x y' = true) := by
    intro y m l
    rw [List.pairwise_map]
    refine pairwise_trivial _ ?_ l
    intro a b
    exact ymLe_of_keys _ _ y m y m rfl rfl rfl rfl (Or.inr ⟨rfl, Nat.le_refl m⟩)
  have hcross : ∀ (i j : Nat), i ≤ j →
      ∀ (li lj : List Rec) (a b : Rec),
        a ∈ li.map (stampSkip (periodKey sy sm i).1 (periodKey sy sm i).2) →
        b ∈ lj.map (stampSkip (periodKey sy sm j).1 (periodKey sy sm j).2) →
        ymLe a b = true := by
    intro i j hij li lj a b ha hb
    rcases hmem _ _ _ _ ha with ⟨ha1, ha2⟩
    rcases hmem _ _ _ _ hb with ⟨hb1, hb2⟩
    exact ymLe_of_keys a b _ _ _ _ ha1 ha2 hb1 hb2 (periodKey_mono sy sm i j hij)
  rw [List.pairwise_append]
  refine ⟨?_, hchunk _ _ l2, ?_⟩
  · rw [List.pairwise_append]
    refine ⟨hchunk _ _ l0, hchunk _ _ l1, ?_⟩
    intro a ha b hb
    exact hcross 0 1 (by omega) l0 l1 a b ha hb
  · intro a ha b hb
    rcases List.mem_append.mp ha with ha | ha
    · exact hcross 0 2 (by omega) l0 l2 a b ha hb
    · exact hcross 1 2 (by omega) l1 l2 a b ha hb

theorem runAll_flagged (e : Env) (sy sm : Nat) :
    (runAll e sy sm).2.2.1 =
      ((extract_mail_data e (periodKey sy sm 0).2
          (e.fragsOf (periodKey sy sm 0).1 (periodKey sy sm 0).2)).2.2.1.map
        (stampSkip (periodKey sy sm 0).1 (periodKey sy sm 0).2)) ++
      ((extract_mail_data e (periodKey sy sm 1).2
          (e.fragsOf (periodKey sy sm 1).1 (periodKey sy sm 1).2)).2.2.1.map
        (stampSkip (periodKey sy sm 1).1 (periodKey sy sm 1).2)) ++
      ((extract_mail_data e (periodKey sy sm 2).2
          (e.fragsOf (periodKey sy sm 2).1 (periodKey sy sm 2).2)).2.2.1.map
        (stampSkip (periodKey sy sm 2).1 (periodKey sy sm 2).2)) := rfl

theorem runAll_zero (e : Env) (sy sm : Nat) :
    (runAll e sy sm).2.2.2 =
      ((extract_mail_data e (periodKey sy sm 0).2
          (e.fragsOf (periodKey sy sm 0).1 (periodKey sy sm 0).2)).2.2.2.map
        (stampSkip (periodKey sy sm 0).1 (periodKey sy sm 0).2)) ++
      ((extract_mail_data e (periodKey sy sm 1).2
          (e.fragsOf (periodKey sy sm 1).1 (periodKey sy sm 1).2)).2.2.2.map
        (stampSkip (periodKey sy sm 1).1 (periodKey sy sm 1).2)) ++
      ((extract_mail_data e (periodKey sy sm 2).2
          (e.fragsOf (periodKey sy sm 2).1 (periodKey sy sm 2).2)).2.2.2.map
        (stampSkip (periodKey sy sm 2).1 (periodKey sy sm 2).2)) := rfl

theorem slotGet_initial_tsui (num tsui zero : List Rec) :
    slotGet "追M" (initialSlots num tsui zero) = some tsui := by
  simp [initialSlots, slotGet]

theorem slotGet_initial_zero (num tsui zero : List Rec) :
    slotGet "対応不要" (initialSlots num tsui zero) = some zero := by
  simp [initialSlots, slotGet]

theorem slotGet_initial_num (num tsui zero : List Rec) :
    slotGet "数字付き" (initialSlots num tsui zero) = some (isort numLe num) := by
  simp [initialSlots, slotGet]

theorem pipeline_eq (e : Env) (sy sm : Nat) :
    pipeline e sy sm =
      renderSlots (buildSlots (runAll e sy sm).1 (runAll e sy sm).2.1
        (runAll e sy sm).2.2.1 (runAll e sy sm).2.2.2) := rfl

/-! ## Claim C9 (confirmed)

The report loop does re-sort every slot except `数字付き` by `(year,
month)` (source line 1042), but the flagged and zero-only lists enter it as
a concatenation of period chunks whose stamped `(year, month)` keys are
lexicographically nondecreasing across the three scanned periods, and the
sort is stable — so its effect on those two slots is the identity and the
rendered lists are exactly the discovery-ordered concatenations, oldest
period first. -/

/-- C9: provided no normal-bucket record resolves to a contact time that
collides with the literal slot names `追M` or `対応不要` (the classification
loop appends such records into whatever slot carries that name), the
rendered `追M` and `対応不要` slots are exactly the accumulated flagged and
zero-only lists in discovery order — no reordering is observable. -/
theorem C9_discovery_order (e : Env) (sy sm : Nat)
    (hN : ∀ r ∈ (runAll e sy sm).1,
      r.contact_time ≠ some "追M" ∧ r.contact_time ≠ some "対応不要") :
    slotGet "追M" (pipeline e sy sm) = some (runAll e sy sm).2.2.1 ∧
    slotGet "対応不要" (pipeline e sy sm) = some (runAll e sy sm).2.2.2 := by
  rw [pipeline_eq]
  unfold buildSlots
  constructor
  · rw [slotGet_renderSlots _ _ (by decide)]
    rw [slotGet_buildSlots_ne _ _ _ (fun d hd => (hN d hd).1) (by decide) (by decide)]
    rw [slotGet_initial_tsui]
    simp only [Option.map_some']
    rw [runAll_flagged]
    rw [isort_eq_self ymLe _ (pairwise_ym_stamped _ _ _ sy sm)]
  · rw [slotGet_renderSlots _ _ (by decide)]
    rw [slotGet_buildSlots_ne _ _ _ (fun d hd => (hN d hd).2) (by decide) (by decide)]
    rw [slotGet_initial_zero]
    simp only [Option.map_some']
    rw [runAll_zero]
    rw [isort_eq_self ymLe _ (pairwise_ym_stamped _ _ _ sy sm)]

/-- C9 witness: on the concrete environment with one normal fragment the
side condition holds and both rendered slots equal their discovery-order
lists (here empty). -/
theorem C9_discovery_order_witness :
    slotGet "追M" (pipeline envOther 2024 5) = some (runAll envOther 2024 5).2.2.1 ∧
    slotGet "対応不要" (pipeline envOther 2024 5) = some (runAll envOther 2024 5).2.2.2 :=
  C9_discovery_order envOther 2024 5 (by decide)

/-! ## Slot-key stability lemmas -/

theorem slotKeys_appendSlot (ts : List (String × List Rec)) (k : String) (r : Rec) :
    slotKeys (appendSlot ts k r) = slotKeys ts := by
  unfold slotKeys appendSlot
  rw [List.map_map]
  congr 1
  funext kv
  by_cases h : kv.1 = k
  · simp [h]
  · simp [h]

theorem slotKeys_classifyInto (ts : List (String × List Rec)) (d : Rec) :
    slotKeys (classifyInto ts d) = slotKeys ts := by
  unfold classifyInto
  cases hc : d.contact_time with
  | none =>
    simp only [hc, Option.getD_none,
      eq_false (show ¬ (("記載無し" : String) = "不明") by decide), if_false]
    split
    · exact slotKeys_appendSlot _ _ _
    · exact slotKeys_appendSlot _ _ _
  | some v =>
    simp only [hc, Option.getD_some]
    by_cases hv : v = "不明"
    · simp only [eq_true hv, if_true]
      split
      · exact slotKeys_appendSlot _ _ _
      · exact slotKeys_appendSlot _ _ _
    · simp only [eq_false hv, if_false]
      split
      · exact slotKeys_appendSlot _ _ _
      · exact slotKeys_appendSlot _ _ _

theorem slotKeys_foldl (l : List Rec) (ts : List (String × List Rec)) :
    slotKeys (l.foldl classifyInto ts) = slotKeys ts := by
  induction l generalizing ts with
  | nil => rfl
  | cons d ds ih =>
    simp only [List.foldl_cons]
    rw [ih (classifyInto ts d), slotKeys_classifyInto]

theorem slotKeys_renderSlots (ts : List (String × List Rec)) :
    slotKeys (renderSlots ts) = slotKeys ts := by
  unfold slotKeys renderSlots
  rw [List.map_map]
  congr 1
  funext kv
  by_cases h : kv.1 = "数字付き"
  · simp [h]
  · simp [h]

/-! ## Claim C7 (corrected)

An unmatched contact-time value is indeed retained verbatim on the record,
but the grouped structure never grows a key for it: the classification
loop's else-branch (source line 678) appends every record whose contact
time is not an existing key into the one fixed `その他` slot, and the key
set of `time_slots` stays the literal sixteen keys of its initializer. -/

/-- C7 counterexample: in a concrete run whose only normal record resolves
to the non-canonical value `朝のみ`, the record keeps `朝のみ` verbatim in
its `contact_time`, but the final grouped structure has no `朝のみ` key —
the record sits in the shared `その他` bucket, so "each distinct unmatched
value forms its own ad hoc slot" is false. -/
theorem C7_own_key_counterexample :
    extract_contact_time (envOther.fetchContent "u1") = "朝のみ" ∧
    slotGet "朝のみ" (pipeline envOther 2024 5) = none ∧
    slotGet "その他" (pipeline envOther 2024 5) =
      some [{ url := "u1", facility := "高松", name := "山田 太郎 様", mail_month := 5,
              extracted_number := none, responder := none, contact_time := some "朝のみ",
              year := some 2024, month := some 5 }] := by
  decide

/-- C7 amended: when the contact-time field exists but matches no canonical
label, the full (stripped) free text is retained verbatim as the record's
slot label; in the grouped structure such a record is appended to the fixed
`その他` bucket (assuming its text is not literally one of the fixed slot
keys), and the structure's key set is always the fixed sixteen keys — no
per-value ad hoc slot is ever created. -/
theorem C7_other_bucket_amended :
    (∀ (t : String) (raw : List Char), findContactRaw t.data = some raw →
      firstMatch (pyStripL raw) time_patterns = none →
      extract_contact_time (some t) = String.mk (pyStripL raw)) ∧
    (∀ (ts : List (String × List Rec)) (d : Rec) (v : String),
      d.contact_time = some v → v ≠ "不明" →
      (slotKeys ts).contains v = false →
      classifyInto ts d = appendSlot ts "その他" d) ∧
    (∀ (e : Env) (sy sm : Nat), slotKeys (pipeline e sy sm) =
      ["数字付き", "記載無し", "いつでも可能", "10時から11時", "11時から12時",
       "12時から13時", "13時から14時", "14時から15時", "15時から16時",
       "16時から17時", "17時から18時", "18時から19時", "19時から20時",
       "追M", "その他", "対応不要"]) := by
  refine ⟨?_, ?_, ?_⟩
  · intro t raw hraw hfm
    rw [ect_some, hraw]
    simp only [hfm]
  · intro ts d v hc hv hmem
    unfold classifyInto
    simp only [hc, Option.getD_some, eq_false hv, if_false, hmem]
    rw [if_neg (by simp [hmem])]
  · intro e sy sm
    rw [pipeline_eq, slotKeys_renderSlots]
    unfold buildSlots
    rw [slotKeys_foldl]
    rfl

/-- C7 amended witness: the verbatim-retention and `その他`-placement facts
instantiated on concrete inputs, and the fixed key list of a concrete run. -/
theorem C7_other_bucket_amended_witness :
    extract_contact_time (some "連絡可能時間：朝のみ\n") = "朝のみ" ∧
    classifyInto (initialSlots [] [] [])
        { url := "u1", facility := "高松", name := "山田 太郎 様", mail_month := 5,
          extracted_number := none, responder := none, contact_time := some "朝のみ",
          year := some 2024, month := some 5 } =
      appendSlot (initialSlots [] [] []) "その他"
        { url := "u1", facility := "高松", name := "山田 太郎 様", mail_month := 5,
          extracted_number := none, responder := none, contact_time := some "朝のみ",
          year := some 2024, month := some 5 } ∧
    slotKeys (pipeline envTriv 2024 5) =
      ["数字付き", "記載無し", "いつでも可能", "10時から11時", "11時から12時",
       "12時から13時", "13時から14時", "14時から15時", "15時から16時",
       "16時から17時", "17時から18時", "18時から19時", "19時から20時",
       "追M", "その他", "対応不要"] := by
  obtain ⟨h1, h2, h3⟩ := C7_other_bucket_amended
  exact ⟨h1 "連絡可能時間：朝のみ\n" "朝のみ".data (by decide) (by decide),
    h2 (initialSlots [] [] []) _ "朝のみ" rfl (by decide) (by decide),
    h3 envTriv 2024 5⟩

/-! ## Rightmost-digit-run lemmas -/

theorem dropWhile_head_not (p : α → Bool) (l : List α) (c : α) (cs : List α)
    (h : l.dropWhile p = c :: cs) : p c = false := by
  induction l with
  | nil => simp at h
  | cons a l ih =>
    rw [List.dropWhile_cons] at h
    by_cases hp : p a = true
    · rw [if_pos hp] at h
      exact ih h
    · rw [if_neg hp] at h
      obtain ⟨h1, h2⟩ := List.cons.inj h
      rw [← h1]
      simpa using hp

/-- Behavioural characterisation of the `(\d+)(?!.*\d)` extraction: on a
digit-free family name the sentinel 999 is produced; otherwise the value is
the integer reading of a decomposition `a ++ rn ++ b` in which `rn` is a
nonempty digit run, `b` is digit-free (so the run is rightmost and extends
to its right end), and `a` does not end in a digit (so the run is maximal
on the left). -/
theorem extractNumber_spec (cs : List Char) :
    (cs.any Char.isDigit = false → extractNumber cs = 999) ∧
    (cs.any Char.isDigit = true → ∃ a rn b, cs = a ++ rn ++ b ∧ rn ≠ [] ∧
      rn.all Char.isDigit = true ∧ b.all (fun c => !(Char.isDigit c)) = true ∧
      (a = [] ∨ ∃ a0 c0, a = a0 ++ [c0] ∧ Char.isDigit c0 = false) ∧
      extractNumber cs = digitsToNat rn) := by
  constructor
  · intro h
    have hrev : cs.reverse.dropWhile (fun c => !(Char.isDigit c)) = [] := by
      rw [List.dropWhile_eq_nil_iff]
      intro x hx
      have hxd : ¬ (Char.isDigit x = true) := by
        intro hd
        have hany : cs.any Char.isDigit = true :=
          List.any_eq_true.mpr ⟨x, List.mem_reverse.mp hx, hd⟩
        rw [hany] at h
        exact absurd h (by simp)
      simpa using hxd
    unfold extractNumber rightmostDigitRun
    rw [hrev]
    rfl
  · intro h
    have hwne : cs.reverse.dropWhile (fun c => !(Char.isDigit c)) ≠ [] := by
      intro hnil
      have hall := List.dropWhile_eq_nil_iff.mp hnil
      rcases List.any_eq_true.mp h with ⟨x, hx, hxd⟩
      have := hall x (List.mem_reverse.mpr hx)
      rw [hxd] at this
      exact absurd this (by simp)
    obtain ⟨c, w', hwc⟩ :=
      List.exists_cons_of_ne_nil hwne
    have hcdig : Char.isDigit c = true := by
      have := dropWhile_head_not (fun c => !(Char.isDigit c)) cs.reverse c w' hwc
      simpa using this
    refine ⟨((cs.reverse.dropWhile (fun c => !(Char.isDigit c))).dropWhile Char.isDigit).reverse,
      ((cs.reverse.dropWhile (fun c => !(Char.isDigit c))).takeWhile Char.isDigit).reverse,
      (cs.reverse.takeWhile (fun c => !(Char.isDigit c))).reverse,
      ?_, ?_, ?_, ?_, ?_, ?_⟩
    · rw [← List.reverse_append, ← List.reverse_append]
      rw [List.takeWhile_append_dropWhile, List.takeWhile_append_dropWhile]
      exact cs.reverse_reverse.symm
    · intro hnil
      have : (cs.reverse.dropWhile (fun c => !(Char.isDigit c))).takeWhile Char.isDigit = [] := by
        have := congrArg List.reverse hnil
        simpa using this
      rw [hwc] at this
      rw [List.takeWhile_cons_of_pos hcdig] at this
      exact absurd this (by simp)
    · rw [List.all_reverse]
      exact List.all_takeWhile
    · rw [List.all_reverse]
      exact List.all_takeWhile
    · cases hv : (cs.reverse.dropWhile (fun c => !(Char.isDigit c))).dropWhile Char.isDigit with
      | nil =>
        left
        rfl
      | cons c2 v2 =>
        right
        refine ⟨v2.reverse, c2, ?_, ?_⟩
        · simp
        · exact dropWhile_head_not Char.isDigit _ c2 v2 hv
    · unfold extractNumber rightmostDigitRun
      have hne : (((cs.reverse.dropWhile (fun c => !(Char.isDigit c))).takeWhile
          Char.isDigit).reverse).isEmpty = false := by
        rw [hwc, List.takeWhile_cons_of_pos hcdig]
        simp
      simp [hne]

/-! ## Numeric-bucket ordering lemmas -/

theorem numLe_total (a b : Rec) (h : numLe a b = false) : numLe b a = true := by
  unfold numLe at h ⊢
  simp at h ⊢
  omega

theorem numLe_trans (a b c : Rec) (h1 : numLe a b = true) (h2 : numLe b c = true) :
    numLe a c = true := by
  unfold numLe at h1 h2 ⊢
  simp at h1 h2 ⊢
  omega

theorem runAll_num (e : Env) (sy sm : Nat) :
    (runAll e sy sm).2.1 =
      ((isort numLe (extractLoop e (periodKey sy sm 0).2
          (e.fragsOf (periodKey sy sm 0).1 (periodKey sy sm 0).2)).2.1).map
        (stampSkip (periodKey sy sm 0).1 (periodKey sy sm 0).2)) ++
      ((isort numLe (extractLoop e (periodKey sy sm 1).2
          (e.fragsOf (periodKey sy sm 1).1 (periodKey sy sm 1).2)).2.1).map
        (stampSkip (periodKey sy sm 1).1 (periodKey sy sm 1).2)) ++
      ((isort numLe (extractLoop e (periodKey sy sm 2).2
          (e.fragsOf (periodKey sy sm 2).1 (periodKey sy sm 2).2)).2.1).map
        (stampSkip (periodKey sy sm 2).1 (periodKey sy sm 2).2)) := rfl

theorem isort_numLe_filter (l : List Rec) (n : Nat) :
    (isort numLe l).filter (fun r => keyNum r == n) =
      l.filter (fun r => keyNum r == n) := by
  have h := filter_isort keyNum n l
  exact h

theorem filter_keyNum_map_stamp (y m n : Nat) (l : List Rec) :
    (l.map (stampSkip y m)).filter (fun r => keyNum r == n) =
      (l.filter (fun r => keyNum r == n)).map (stampSkip y m) := by
  induction l with
  | nil => rfl
  | cons r l ih =>
    simp only [List.map_cons, List.filter_cons]
    have hk : keyNum (stampSkip y m r) = keyNum r := rfl
    rw [hk]
    by_cases h : keyNum r = n
    · simp [h, ih]
    · simp [h, ih]

/-- The numeric slot of the report equals the stable sort of the
accumulated numeric bucket, provided no normal-bucket record's contact time
collides with the literal slot name `数字付き`. -/
theorem slotGet_pipeline_num (e : Env) (sy sm : Nat)
    (hN : ∀ r ∈ (runAll e sy sm).1, r.contact_time ≠ some "数字付き") :
    slotGet "数字付き" (pipeline e sy sm) =
      some (isort numLe (runAll e sy sm).2.1) := by
  rw [pipeline_eq, slotGet_renderSlots_num]
  unfold buildSlots
  rw [slotGet_buildSlots_ne _ _ _ hN (by decide) (by decide)]
  exact slotGet_initial_num _ _ _

theorem numericDiscovery_eq (e : Env) (sy sm : Nat) :
    numericDiscovery e sy sm =
      ((extractLoop e (periodKey sy sm 0).2
          (e.fragsOf (periodKey sy sm 0).1 (periodKey sy sm 0).2)).2.1.map
        (stampSkip (periodKey sy sm 0).1 (periodKey sy sm 0).2)) ++
      ((extractLoop e (periodKey sy sm 1).2
          (e.fragsOf (periodKey sy sm 1).1 (periodKey sy sm 1).2)).2.1.map
        (stampSkip (periodKey sy sm 1).1 (periodKey sy sm 1).2)) ++
      ((extractLoop e (periodKey sy sm 2).2
          (e.fragsOf (periodKey sy sm 2).1 (periodKey sy sm 2).2)).2.1.map
        (stampSkip (periodKey sy sm 2).1 (periodKey sy sm 2).2)) := rfl

theorem filter_numeric_pipeline (e : Env) (sy sm n : Nat) :
    (isort numLe (runAll e sy sm).2.1).filter (fun r => keyNum r == n) =
      (numericDiscovery e sy sm).filter (fun r => keyNum r == n) := by
  rw [isort_numLe_filter, runAll_num, numericDiscovery_eq]
  simp only [List.filter_append, filter_keyNum_map_stamp, isort_numLe_filter]

/-! ## Claim C3 (confirmed)

The rendered `数字付き` slot is the stable sort of the accumulated numeric
bucket by `extracted_number` alone: it is pairwise nondecreasing in the
key, ties preserve discovery order (the per-key subsequences equal those of
the unsorted discovery-order list), year/month cannot influence the order
(any key-preserving re-stamping commutes with the sort), and each numeric
record's number is the rightmost maximal digit run of its family name with
sentinel 999 when no run exists. -/

/-- C3: in the final grouped structure (with no normal record colliding
with the literal slot name `数字付き`), the numeric slot is sorted by
`extracted_number` ascending; records of equal `extracted_number` appear
exactly in discovery order; the sort commutes with every transformation
that preserves `extracted_number` (in particular year/month stamping plays
no role); and `extracted_number` is the rightmost maximal digit run (999
when no digit run is captured). -/
theorem C3_numeric_sorted (e : Env) (sy sm : Nat)
    (hN : ∀ r ∈ (runAll e sy sm).1, r.contact_time ≠ some "数字付き") :
    (∃ L, slotGet "数字付き" (pipeline e sy sm) = some L ∧
      L.Pairwise (fun a b => keyNum a ≤ keyNum b) ∧
      ∀ n : Nat, L.filter (fun r => keyNum r == n) =
        (numericDiscovery e sy sm).filter (fun r => keyNum r == n)) ∧
    (∀ g : Rec → Rec, (∀ r, keyNum (g r) = keyNum r) →
      ∀ l : List Rec, isort numLe (l.map g) = (isort numLe l).map g) ∧
    (∀ (e' : Env) (tm : Nat) (f : Fragment), fragBucket f = some .numeric →
      (extractLoop e' tm [f]).2.1.map Rec.extracted_number =
        [some (extractNumber (famOf f))]) ∧
    (∀ cs : List Char,
      (cs.any Char.isDigit = false → extractNumber cs = 999) ∧
      (cs.any Char.isDigit = true → ∃ a rn b, cs = a ++ rn ++ b ∧ rn ≠ [] ∧
        rn.all Char.isDigit = true ∧ b.all (fun c => !(Char.isDigit c)) = true ∧
        (a = [] ∨ ∃ a0 c0, a = a0 ++ [c0] ∧ Char.isDigit c0 = false) ∧
        extractNumber cs = digitsToNat rn)) := by
  refine ⟨⟨isort numLe (runAll e sy sm).2.1, slotGet_pipeline_num e sy sm hN,
    ?_, ?_⟩, ?_, ?_, extractNumber_spec⟩
  · have h := pairwise_isort numLe numLe_total numLe_trans (runAll e sy sm).2.1
    exact h.imp (fun hab => of_decide_eq_true hab)
  · intro n
    exact filter_numeric_pipeline e sy sm n
  · intro g hg l
    refine isort_map numLe g ?_ l
    intro a b
    unfold numLe
    rw [hg a, hg b]
  · intro e' tm f hf
    rw [extractLoop_eq]
    have hb : inBucket .numeric f = true := by simp [inBucket, hf]
    simp [List.filter_cons, hb, mkNumeric, mkBase]

/-- C3 witness: the ordering facts instantiated on the concrete run, the
key-preserving map fact at the identity, the numeric-record fact at a
concrete numeric fragment, and the digit-run value on `田中5`. -/
theorem C3_numeric_sorted_witness :
    (∃ L, slotGet "数字付き" (pipeline envOther 2024 5) = some L ∧
      L.Pairwise (fun a b => keyNum a ≤ keyNum b) ∧
      ∀ n : Nat, L.filter (fun r => keyNum r == n) =
        (numericDiscovery envOther 2024 5).filter (fun r => keyNum r == n)) ∧
    (extractLoop envTriv 7 [fragNum]).2.1.map Rec.extracted_number =
      [some (extractNumber (famOf fragNum))] ∧
    extractNumber "田中5".data = 5 := by
  obtain ⟨h1, h2, h3, h4⟩ := C3_numeric_sorted envOther 2024 5 (by decide)
  exact ⟨h1, h3 envTriv 7 fragNum (by decide), by decide⟩

/-- C2 amended witness: the amended equivalence instantiated at `田中0`
(classified zero-only) with both sides evaluated. -/
theorem C2_zero_only_amended_witness :
    classifyFamily "田中0" = .zeroOnly ↔
      (has_tsui "田中0" = false ∧ "田中0".data.filter Char.isDigit = ['0']) :=
  C2_zero_only_amended "田中0"

end MailTime
